import Mathlib

/-!
Verification of the geometric line-merging algorithm (`merge_text_lines`,
src/text_process.py) and the background/foreground color inference
(`get_text_background_color`, `get_text_color`, `get_text_color_fallback`,
`get_contrasting_color`, src/color_process.py) of the Image_translator
repository.

Modelling conventions:
* Pixel coordinates and color channels are integers (`Int`), as the OCR
  locations are whole-pixel values.  Python's float expressions over whole
  numbers are replaced by exactly equivalent integer comparisons:
  `abs(mid - last_mid) <= d * w` (with `mid = (2l+w)/2`) becomes
  `|(2l+w) - (2l'+w')| ≤ 2*d*w`; `sqrt(d2) < 10` becomes `d2 < 100`,
  `sqrt(d2) > 20` becomes `d2 > 400`, and `sqrt(d2) > t` (with `t` the
  caller-supplied threshold) becomes `t < 0 ∨ d2 > t*t`.
* Python's `int(...)` cast of an exact rational quotient truncates toward
  zero, which is `Int.tdiv`; Python's floor division `//` is `Int.ediv`
  (written `/` on `Int`).
* Python's stable `sorted` is modelled by `List.insertionSort`, which is
  stable for a total preorder.
* A raised exception is modelled by `Option`/`Except`; the `try/except`
  wrappers of color_process.py become total wrappers substituting the
  default color, and missing dictionary keys (KeyError) become `none`
  fields of a raw record.
-/

namespace ImageTranslator

/-! ## Data model: fragments and locations (src/text_process.py) -/

/-- A fragment's bounding box, the `location` dictionary of an OCR result:
`{left, top, width, height}`. -/
structure Location where
  left : Int
  top : Int
  width : Int
  height : Int
deriving DecidableEq, Repr

/-- One OCR result: recognized `words` plus its `location`. -/
structure Fragment where
  words : String
  location : Location
deriving DecidableEq, Repr

/-- The sort key used by `merge_text_lines`:
`key=lambda x: (x['location']['top'], x['location']['left'])`. -/
def sortKey (f : Fragment) : Int × Int := (f.location.top, f.location.left)

/-- Python's ascending tuple comparison on the sort key `(top, left)`. -/
def keyLe (a b : Fragment) : Prop :=
  a.location.top < b.location.top ∨
    (a.location.top = b.location.top ∧ a.location.left ≤ b.location.left)

instance : DecidableRel keyLe := fun a b => by
  unfold keyLe; infer_instance

instance : IsTotal Fragment keyLe :=
  ⟨fun a b => by unfold keyLe; omega⟩

instance : IsTrans Fragment keyLe :=
  ⟨fun a b c hab hbc => by unfold keyLe at *; omega⟩

/-- Strict version of `keyLe`: the keys compare strictly smaller. -/
def keyLt (a b : Fragment) : Prop :=
  a.location.top < b.location.top ∨
    (a.location.top = b.location.top ∧ a.location.left < b.location.left)

instance : DecidableRel keyLt := fun a b => by
  unfold keyLt; infer_instance

instance : IsAntisymm Fragment keyLt :=
  ⟨fun a b hab hba => by unfold keyLt at *; omega⟩

/-! ## The merge tests of merge_text_lines -/

/-- The vertical gap test of line 33 of text_process.py:
`(top - last_bottom) <= height * max_line_gap`, where `top` and `height`
belong to the CURRENT fragment and `last_bottom = last.top + last.height`. -/
def vTest (gap : Int) (cur last : Location) : Bool :=
  decide (cur.top - (last.top + last.height) ≤ cur.height * gap)

/-- The horizontal alignment test of line 33 of text_process.py:
`abs(left - last_left) <= max_x_diff or abs(mid - last_mid) <= max_x_diff * width`,
with `mid = (left*2 + width)/2`.  The second (float) comparison is doubled
into the exactly equivalent integer comparison. -/
def hTest (xdiff : Int) (cur last : Location) : Bool :=
  decide (|cur.left - last.left| ≤ xdiff) ||
    decide (|(2 * cur.left + cur.width) - (2 * last.left + last.width)| ≤ 2 * xdiff * cur.width)

/-- Whether an open paragraph (its `res` fragment list) accepts a fragment:
the tests are run against the paragraph's last-appended fragment.  The
`none` branch mirrors the `if not para: continue` guard of line 27. -/
def accepts (gap xdiff : Int) (p : List Fragment) (f : Fragment) : Bool :=
  match p.getLast? with
  | none => false
  | some last => vTest gap f.location last.location && hTest xdiff f.location last.location

/-- The inner `for para in paragraphs` loop of lines 26-36: append `f` to
the first open paragraph that accepts it, returning `none` when no
paragraph does. -/
def tryAppend (gap xdiff : Int) (f : Fragment) :
    List (List Fragment) → Option (List (List Fragment))
  | [] => none
  | p :: ps =>
    if accepts gap xdiff p f then some ((p ++ [f]) :: ps)
    else match tryAppend gap xdiff f ps with
      | some ps' => some (p :: ps')
      | none => none

/-- One iteration of the outer loop (lines 21-39): place one fragment,
creating a fresh single-fragment paragraph when no open one accepts it. -/
def step (gap xdiff : Int) (ps : List (List Fragment)) (f : Fragment) :
    List (List Fragment) :=
  match tryAppend gap xdiff f ps with
  | some ps' => ps'
  | none => ps ++ [[f]]

/-- The grouping phase of `merge_text_lines` over an already sorted list. -/
def mergeCore (gap xdiff : Int) (l : List Fragment) : List (List Fragment) :=
  l.foldl (step gap xdiff) []

/-- The `words` computation of lines 41-45: member words joined in append
order, each followed by a line break. -/
def paraWords (res : List Fragment) : String :=
  res.foldl (fun acc f => acc ++ f.words ++ "\n") ""

/-- A finished paragraph: its fragment list `res` and joined `words`. -/
structure Paragraph where
  res : List Fragment
  words : String
deriving DecidableEq, Repr

/-- `merge_text_lines(ocr_results, max_line_gap=2, max_x_diff=1)`
(lines 7-47 of text_process.py): early return on an empty input, stable
sort by `(top, left)`, first-fit grouping, then the `words` pass. -/
def merge_text_lines (gap xdiff : Int) (ocr : List Fragment) : List Paragraph :=
  match ocr with
  | [] => []
  | _ =>
    (mergeCore gap xdiff (List.insertionSort keyLe ocr)).map
      (fun r => ⟨r, paraWords r⟩)

/-! ## Raw (unvalidated) input for the error-handling claim C4 -/

/-- A location dictionary that may be missing keys: a `none` field models
a key whose access raises `KeyError`. -/
structure RawLocation where
  left : Option Int
  top : Option Int
  width : Option Int
  height : Option Int
deriving DecidableEq, Repr

/-- An OCR record with a possibly incomplete location dictionary. -/
structure RawFragment where
  words : String
  location : RawLocation
deriving DecidableEq, Repr

/-- Extract the four location fields, failing (KeyError) when one is
missing.  Lines 18 and 23 of text_process.py read all four keys of every
fragment before any output is produced. -/
def RawFragment.toWF (r : RawFragment) : Option Fragment :=
  match r.location.left, r.location.top, r.location.width, r.location.height with
  | some l, some t, some w, some h => some ⟨r.words, ⟨l, t, w, h⟩⟩
  | _, _, _, _ => none

/-- The error raised by `merge_text_lines` on malformed input. -/
inductive MergeError where
  | keyError
deriving DecidableEq, Repr

/-- Extract all fragments, failing when any field of any fragment is
missing. -/
def extractWF : List RawFragment → Option (List Fragment)
  | [] => some []
  | r :: rs =>
    match r.toWF, extractWF rs with
    | some f, some fs => some (f :: fs)
    | _, _ => none

/-- `merge_text_lines` on raw input: a missing location key anywhere
raises (no partial output); otherwise the merge runs on the extracted
fragments.  The code performs no further validation. -/
def merge_text_lines_raw (gap xdiff : Int) (raw : List RawFragment) :
    Except MergeError (List Paragraph) :=
  match extractWF raw with
  | some frags => .ok (merge_text_lines gap xdiff frags)
  | none => .error .keyError

/-! ## ColorInferer data model (src/color_process.py) -/

/-- An RGB color; only the first three channels of a pixel are used. -/
structure Color where
  r : Int
  g : Int
  b : Int
deriving DecidableEq, Repr

/-- The decoded image: `width`/`height` in pixels, and `pix y x` the pixel
at row `y`, column `x` (numpy `img_array[y, x]` order).  The code only
reads in-bounds pixels, so values outside the bounds are irrelevant. -/
structure Image where
  width : Int
  height : Int
  pix : Int → Int → Color

/-- Squared Euclidean color distance.  The code compares
`np.linalg.norm(a - b)` against nonnegative constants, which is exactly a
comparison of this square against the constant's square. -/
def dist2 (a b : Color) : Int :=
  (a.r - b.r) * (a.r - b.r) + (a.g - b.g) * (a.g - b.g) + (a.b - b.b) * (a.b - b.b)

/-- `sqrt (dist2) > t` for a caller-supplied (possibly negative) integer
threshold `t`: a negative threshold is always exceeded. -/
def distGT (d2 t : Int) : Bool :=
  decide (t < 0) || decide (t * t < d2)

/-- The row-major pixel list of the numpy slice
`img_array[top:bottom, left:right]`. -/
def region (img : Image) (top bottom left right : Int) : List Color :=
  (List.range (bottom - top).toNat).flatMap (fun dy =>
    (List.range (right - left).toNat).map (fun dx =>
      img.pix (top + Int.ofNat dy) (left + Int.ofNat dx)))

/-- `int(...)` of the exact rational `num / den` (for `den > 0`):
truncation toward zero. -/
def intTruncDiv (num den : Int) : Int := Int.tdiv num den

/-- `np.median` of an integer list followed by `int(...)`: the middle
element of the sorted list, or the truncated average of the two middle
elements when the length is even.  Callers only apply it to non-empty
lists; the default `0` of `getD` is never read. -/
def medianChannel (l : List Int) : Int :=
  let s := List.insertionSort (· ≤ ·) l
  let n := s.length
  if n % 2 = 1 then s.getD (n / 2) 0
  else intTruncDiv (s.getD (n / 2 - 1) 0 + s.getD (n / 2) 0) 2

/-- Per-channel median of a pixel list (`np.median(..., axis=0)` with the
`int` cast of the callers). -/
def medianColor (l : List Color) : Color :=
  ⟨medianChannel (l.map (·.r)), medianChannel (l.map (·.g)), medianChannel (l.map (·.b))⟩

/-- Per-channel mean of a pixel list (`np.mean(..., axis=(0,1))` with the
`int` cast), as the truncated exact rational mean. -/
def meanColor (l : List Color) : Color :=
  ⟨intTruncDiv (l.map (·.r)).sum l.length,
   intTruncDiv (l.map (·.g)).sum l.length,
   intTruncDiv (l.map (·.b)).sum l.length⟩

/-! ## get_text_background_color (lines 4-73 of color_process.py) -/

/-- The eight perimeter sample points of lines 40-53, as `(x, y)` pairs:
`left`/`top` are the clamped values of lines 21-22, while `width`/`height`
are the original location fields.  Python `// 2` is `Int`'s `/` (floor). -/
def samplePoints (left top width height : Int) : List (Int × Int) :=
  [(left + 2, top + 2),
   (left + width / 2, top + 2),
   (left + width - 2, top + 2),
   (left + 2, top + height - 2),
   (left + width / 2, top + height - 2),
   (left + width - 2, top + height - 2),
   (left + 2, top + height / 2),
   (left + width - 2, top + height / 2)]

/-- The body of `get_text_background_color`: clip, empty-region default,
perimeter sampling with bounds check, median of surviving samples, or the
mean-of-region fallback when no sample survives. -/
def get_text_background_color (img : Image) (loc : Location) : Color :=
  let left := max 0 loc.left
  let top := max 0 loc.top
  let right := min img.width (left + loc.width)
  let bottom := min img.height (top + loc.height)
  if right ≤ left ∨ bottom ≤ top then ⟨255, 255, 255⟩
  else
    let tr := region img top bottom left right
    if tr.length = 0 then ⟨255, 255, 255⟩
    else
      let samples :=
        ((samplePoints left top loc.width loc.height).filter
          (fun q => decide (0 ≤ q.1) && decide (q.1 < img.width) &&
                    decide (0 ≤ q.2) && decide (q.2 < img.height))).map
          (fun q => img.pix q.2 q.1)
      if samples.length = 0 then meanColor tr
      else medianColor samples

/-! ## get_text_color and its helpers (lines 76-175 of color_process.py) -/

/-- `get_contrasting_color` (lines 166-175): luminance
`(r*299 + g*587 + b*114) / 1000` compared against 128, made integral by
multiplying through by 1000. -/
def get_contrasting_color (bg : Color) : Color :=
  if 128000 < bg.r * 299 + bg.g * 587 + bg.b * 114 then ⟨0, 0, 0⟩
  else ⟨255, 255, 255⟩

/-- `get_text_color_fallback` (lines 149-163): the all-pixels per-channel
median when it is more than 20 away from the background, else the
contrasting color. -/
def get_text_color_fallback (tr : List Color) (bg : Color) : Color :=
  let m := medianColor tr
  if 400 < dist2 m bg then m else get_contrasting_color bg

/-- The body of `get_text_color` (lines 76-146): clip, empty-region black
default, background default via `get_text_background_color` when absent,
full-region scan for pixels farther than the threshold from the
background, median of those pixels, fallback when none qualify, and the
final distance-10 contrast check. -/
def get_text_color (img : Image) (loc : Location) (bg? : Option Color)
    (thr : Int) : Color :=
  let left := max 0 loc.left
  let top := max 0 loc.top
  let right := min img.width (left + loc.width)
  let bottom := min img.height (top + loc.height)
  if right ≤ left ∨ bottom ≤ top then ⟨0, 0, 0⟩
  else
    let tr := region img top bottom left right
    if tr.length = 0 then ⟨0, 0, 0⟩
    else
      let bg := match bg? with
        | some c => c
        | none => get_text_background_color img loc
      let textPixels := tr.filter (fun p => distGT (dist2 p bg) thr)
      if textPixels.length = 0 then get_text_color_fallback tr bg
      else
        let m := medianColor textPixels
        if dist2 m bg < 100 then get_contrasting_color bg
        else m

/-! ## Raw wrappers: the try/except boundary of color_process.py -/

/-- Extract the four fields of a raw location dictionary, failing
(KeyError, caught by the `except` of color_process.py) when one is
missing. -/
def RawLocation.toWF (raw : RawLocation) : Option Location :=
  match raw.left, raw.top, raw.width, raw.height with
  | some l, some t, some w, some h => some ⟨l, t, w, h⟩
  | _, _, _, _ => none

/-- `get_text_background_color` with its try/except boundary: any failure
of the body (modelled: a missing location key) is converted to the white
default; the function is total and never raises. -/
def get_text_background_color_raw (img : Image) (raw : RawLocation) : Color :=
  match raw.toWF with
  | some loc => get_text_background_color img loc
  | none => ⟨255, 255, 255⟩

/-- `get_text_color` with its try/except boundary: any failure of the body
is converted to the black default; the function is total and never
raises. -/
def get_text_color_raw (img : Image) (raw : RawLocation) (bg? : Option Color)
    (thr : Int) : Color :=
  match raw.toWF with
  | some loc => get_text_color img loc bg? thr
  | none => ⟨0, 0, 0⟩

/-! ## Structural lemmas about the merge loop -/

lemma tryAppend_flatten {gap xdiff : Int} {f : Fragment} :
    ∀ (ps : List (List Fragment)) {ps' : List (List Fragment)},
      tryAppend gap xdiff f ps = some ps' →
      ps'.flatten.Perm (ps.flatten ++ [f]) := by
  intro ps
  induction ps with
  | nil => intro ps' h; simp [tryAppend] at h
  | cons p ps ih =>
    intro ps' h
    rw [tryAppend] at h
    by_cases hacc : accepts gap xdiff p f = true
    · simp only [if_pos hacc, Option.some.injEq] at h
      subst h
      simp only [List.flatten_cons, List.append_assoc]
      exact List.Perm.append_left p List.perm_append_comm
    · rw [if_neg hacc] at h
      cases hrec : tryAppend gap xdiff f ps with
      | none => rw [hrec] at h; cases h
      | some qs =>
        rw [hrec] at h
        simp only [Option.some.injEq] at h
        subst h
        simp only [List.flatten_cons, List.append_assoc]
        exact List.Perm.append_left p (ih hrec)

lemma step_flatten (gap xdiff : Int) (ps : List (List Fragment)) (f : Fragment) :
    (step gap xdiff ps f).flatten.Perm (ps.flatten ++ [f]) := by
  unfold step
  cases hrec : tryAppend gap xdiff f ps with
  | some ps' => exact tryAppend_flatten ps hrec
  | none =>
    simp only [List.flatten_append, List.flatten_cons, List.flatten_nil, List.append_nil]
    exact List.Perm.refl _

lemma foldl_flatten (gap xdiff : Int) :
    ∀ (l : List Fragment) (ps : List (List Fragment)),
      ((l.foldl (step gap xdiff) ps).flatten).Perm (ps.flatten ++ l) := by
  intro l
  induction l with
  | nil =>
    intro ps
    simp only [List.foldl_nil, List.append_nil]
    exact List.Perm.refl _
  | cons f l ih =>
    intro ps
    rw [List.foldl_cons]
    refine (ih (step gap xdiff ps f)).trans ?_
    refine (List.Perm.append_right l (step_flatten gap xdiff ps f)).trans ?_
    simp only [List.append_assoc, List.singleton_append]
    exact List.Perm.refl _

lemma merge_eq (gap xdiff : Int) (l : List Fragment) :
    merge_text_lines gap xdiff l =
      (mergeCore gap xdiff (List.insertionSort keyLe l)).map
        (fun r => ⟨r, paraWords r⟩) := by
  cases l <;> rfl

/-- C1: `merge_text_lines` partitions its input completely: the flattened
output paragraphs are a permutation of the input (every fragment appears
exactly once, none dropped or duplicated), the total fragment count is
preserved, and an empty input yields an empty list. -/
theorem claim_C1 (gap xdiff : Int) (l : List Fragment) :
    ((merge_text_lines gap xdiff l).flatMap Paragraph.res).Perm l ∧
    ((merge_text_lines gap xdiff l).map (fun p => p.res.length)).sum = l.length ∧
    merge_text_lines gap xdiff ([] : List Fragment) = [] := by
  have hflat : (merge_text_lines gap xdiff l).flatMap Paragraph.res =
      (mergeCore gap xdiff (List.insertionSort keyLe l)).flatten := by
    rw [merge_eq]
    simp only [List.flatMap, List.map_map]
    have hid : (Paragraph.res ∘ fun r => (⟨r, paraWords r⟩ : Paragraph)) = id := rfl
    rw [hid, List.map_id]
  have hperm : ((merge_text_lines gap xdiff l).flatMap Paragraph.res).Perm l := by
    rw [hflat]
    unfold mergeCore
    have h1 := foldl_flatten gap xdiff (List.insertionSort keyLe l) []
    simp only [List.flatten_nil, List.nil_append] at h1
    exact h1.trans (List.perm_insertionSort keyLe l)
  refine ⟨hperm, ?_, rfl⟩
  have hlen := hperm.length_eq
  rw [List.length_flatMap] at hlen
  simpa using hlen

/-! ## Paragraph membership and sortedness invariants -/

lemma tryAppend_mem {gap xdiff : Int} {f : Fragment} :
    ∀ (ps : List (List Fragment)) {ps' : List (List Fragment)},
      tryAppend gap xdiff f ps = some ps' →
      ∀ q ∈ ps', q ∈ ps ∨ ∃ p ∈ ps, q = p ++ [f] := by
  intro ps
  induction ps with
  | nil => intro ps' h; simp [tryAppend] at h
  | cons p ps ih =>
    intro ps' h q hq
    rw [tryAppend] at h
    by_cases hacc : accepts gap xdiff p f = true
    · simp only [if_pos hacc, Option.some.injEq] at h
      subst h
      rcases List.mem_cons.mp hq with rfl | hq
      · exact Or.inr ⟨p, List.mem_cons_self p ps, rfl⟩
      · exact Or.inl (List.mem_cons_of_mem p hq)
    · rw [if_neg hacc] at h
      cases hrec : tryAppend gap xdiff f ps with
      | none => rw [hrec] at h; cases h
      | some qs =>
        rw [hrec] at h
        simp only [Option.some.injEq] at h
        subst h
        rcases List.mem_cons.mp hq with rfl | hq
        · exact Or.inl (List.mem_cons_self q ps)
        · rcases ih hrec q hq with hin | ⟨p', hp', rfl⟩
          · exact Or.inl (List.mem_cons_of_mem p hin)
          · exact Or.inr ⟨p', List.mem_cons_of_mem p hp', rfl⟩

lemma step_mem {gap xdiff : Int} {ps : List (List Fragment)} {f : Fragment}
    {q : List Fragment} (hq : q ∈ step gap xdiff ps f) :
    q ∈ ps ∨ q = [f] ∨ ∃ p ∈ ps, q = p ++ [f] := by
  unfold step at hq
  cases hrec : tryAppend gap xdiff f ps with
  | some ps' =>
    rw [hrec] at hq
    rcases tryAppend_mem ps hrec q hq with h | h
    · exact Or.inl h
    · exact Or.inr (Or.inr h)
  | none =>
    rw [hrec] at hq
    rcases List.mem_append.mp hq with h | h
    · exact Or.inl h
    · exact Or.inr (Or.inl (List.mem_singleton.mp h))

/-- The loop invariant behind claim C10: every open paragraph is sorted
and all already-placed fragments precede (in key order) every fragment
still to be processed. -/
def paraInv (ps : List (List Fragment)) (rem : List Fragment) : Prop :=
  ∀ p ∈ ps, p.Sorted keyLe ∧ ∀ g ∈ p, ∀ f ∈ rem, keyLe g f

lemma step_inv {gap xdiff : Int} {ps : List (List Fragment)} {f : Fragment}
    {rem : List Fragment} (hs : List.Sorted keyLe (f :: rem))
    (hinv : paraInv ps (f :: rem)) : paraInv (step gap xdiff ps f) rem := by
  intro q hq
  rcases step_mem hq with hq | hq | ⟨p, hp, rfl⟩
  · obtain ⟨h1, h2⟩ := hinv q hq
    exact ⟨h1, fun g hg fr hfr => h2 g hg fr (List.mem_cons_of_mem f hfr)⟩
  · subst hq
    refine ⟨List.sorted_singleton f, ?_⟩
    intro g hg fr hfr
    rw [List.mem_singleton] at hg
    subst hg
    exact (List.sorted_cons.mp hs).1 fr hfr
  · obtain ⟨h1, h2⟩ := hinv p hp
    constructor
    · have hpw : List.Pairwise keyLe (p ++ [f]) := by
        rw [List.pairwise_append]
        refine ⟨h1, List.pairwise_singleton keyLe f, ?_⟩
        intro a ha b hb
        rw [List.mem_singleton] at hb
        subst hb
        exact h2 a ha b (List.mem_cons_self b rem)
      exact hpw
    · intro g hg fr hfr
      rcases List.mem_append.mp hg with hg | hg
      · exact h2 g hg fr (List.mem_cons_of_mem f hfr)
      · rw [List.mem_singleton] at hg
        subst hg
        exact (List.sorted_cons.mp hs).1 fr hfr

lemma foldl_sorted {gap xdiff : Int} :
    ∀ (l : List Fragment) (ps : List (List Fragment)),
      List.Sorted keyLe l → paraInv ps l →
      ∀ p ∈ l.foldl (step gap xdiff) ps, p.Sorted keyLe := by
  intro l
  induction l with
  | nil => intro ps _ hinv p hp; exact (hinv p hp).1
  | cons f l ih =>
    intro ps hs hinv p hp
    rw [List.foldl_cons] at hp
    exact ih (step gap xdiff ps f) (List.sorted_cons.mp hs).2 (step_inv hs hinv) p hp

/-- C10 (implicit): in every paragraph returned by `merge_text_lines`, the
fragment sequence is non-decreasing in the lexicographic `(top, left)`
key: fragments are consumed in sorted order and only appended at the end,
so within-paragraph order inherits the global sort. -/
theorem claim_C10 (gap xdiff : Int) (l : List Fragment) (p : Paragraph)
    (hp : p ∈ merge_text_lines gap xdiff l) : p.res.Sorted keyLe := by
  rw [merge_eq] at hp
  obtain ⟨r, hr, rfl⟩ := List.mem_map.mp hp
  exact foldl_sorted (List.insertionSort keyLe l) []
    (List.sorted_insertionSort keyLe l)
    (fun q hq => absurd hq (List.not_mem_nil q)) r hr

/-- Witness for C10 at a concrete two-fragment input that merges into a
single paragraph. -/
theorem claim_C10_witness :
    (⟨[⟨"a", ⟨0, 0, 10, 10⟩⟩, ⟨"b", ⟨0, 21, 10, 20⟩⟩], "a\nb\n"⟩ : Paragraph) ∈
        merge_text_lines 2 1 [⟨"b", ⟨0, 21, 10, 20⟩⟩, ⟨"a", ⟨0, 0, 10, 10⟩⟩] ∧
    List.Sorted keyLe [⟨"a", ⟨0, 0, 10, 10⟩⟩, ⟨"b", ⟨0, 21, 10, 20⟩⟩] :=
  ⟨by decide,
   claim_C10 2 1 [⟨"b", ⟨0, 21, 10, 20⟩⟩, ⟨"a", ⟨0, 0, 10, 10⟩⟩]
     ⟨[⟨"a", ⟨0, 0, 10, 10⟩⟩, ⟨"b", ⟨0, 21, 10, 20⟩⟩], "a\nb\n"⟩ (by decide)⟩

/-! ## First-fit policy (claim C6) -/

/-- The first-fit placement policy as the spec words it: the fragment
joins the first open paragraph, in paragraph-creation order, whose last
fragment accepts it; when none accepts, a new single-fragment paragraph
is appended.  Stated through `List.findIdx?`, independent of the loop
recursion of the code. -/
def firstFitSpec (gap xdiff : Int) (ps : List (List Fragment)) (f : Fragment) :
    List (List Fragment) :=
  match ps.findIdx? (fun p => accepts gap xdiff p f) with
  | some i => ps.set i (ps.getD i [] ++ [f])
  | none => ps ++ [[f]]

lemma tryAppend_eq_findIdx (gap xdiff : Int) (f : Fragment) :
    ∀ ps : List (List Fragment),
      tryAppend gap xdiff f ps =
        (ps.findIdx? (fun p => accepts gap xdiff p f)).map
          (fun i => ps.set i (ps.getD i [] ++ [f])) := by
  intro ps
  induction ps with
  | nil => rfl
  | cons p ps ih =>
    rw [tryAppend, List.findIdx?_cons]
    by_cases hacc : accepts gap xdiff p f = true
    · simp [hacc]
    · rw [if_neg (by simpa using hacc), List.findIdx?_succ, ih]
      cases hidx : ps.findIdx? (fun p => accepts gap xdiff p f) with
      | none => simp [hacc]
      | some i => simp [hacc, List.set_cons_succ, List.getD_cons_succ]

lemma step_eq_firstFitSpec (gap xdiff : Int) (ps : List (List Fragment))
    (f : Fragment) : step gap xdiff ps f = firstFitSpec gap xdiff ps f := by
  unfold step firstFitSpec
  rw [tryAppend_eq_findIdx]
  cases ps.findIdx? (fun p => accepts gap xdiff p f) <;> rfl

/-- C6: a fragment is appended to an open paragraph only when both the
vertical gap test and the horizontal alignment test against that
paragraph's last fragment pass; it joins the first accepting paragraph in
creation order, and a fresh single-fragment paragraph is created when
none accepts — the code's loop equals the declarative first-fit policy. -/
theorem claim_C6 (gap xdiff : Int) (ps : List (List Fragment)) (f : Fragment)
    (l : List Fragment) :
    step gap xdiff ps f = firstFitSpec gap xdiff ps f ∧
    mergeCore gap xdiff l = l.foldl (firstFitSpec gap xdiff) [] ∧
    ∀ (p : List Fragment) (last : Fragment),
      accepts gap xdiff (p ++ [last]) f =
        (vTest gap f.location last.location && hTest xdiff f.location last.location) := by
  refine ⟨step_eq_firstFitSpec gap xdiff ps f, ?_, ?_⟩
  · unfold mergeCore
    exact List.foldl_ext _ _ [] (fun a b _ => step_eq_firstFitSpec gap xdiff a b)
  · intro p last
    unfold accepts
    rw [List.getLast?_concat]

/-! ## The vertical gap test (claim C2) -/

/-- The vertical gap test as claim C2 words it: tolerance scaled by the
LAST-appended fragment's height.  Written from the spec's words for
comparison with the source-derived `vTest`. -/
def vTestSpecC2 (gap : Int) (cur last : Location) : Bool :=
  decide (cur.top - (last.top + last.height) ≤ last.height * gap)

def c2A : Fragment := ⟨"a", ⟨0, 0, 10, 10⟩⟩

def c2B : Fragment := ⟨"b", ⟨0, 40, 10, 20⟩⟩

/-- C2 counterexample: with a last fragment of height 10 (bottom 10) and a
current fragment at top 40 with height 20, the gap of 30 exceeds the
last-height tolerance 10·2 = 20 but not the current-height tolerance
20·2 = 40, and the code merges the two fragments into one paragraph —
the tolerance is scaled by the current fragment's height, not the last's. -/
theorem claim_C2_counterexample :
    vTest 2 c2B.location c2A.location = true ∧
    vTestSpecC2 2 c2B.location c2A.location = false ∧
    (merge_text_lines 2 1 [c2A, c2B]).map Paragraph.res = [[c2A, c2B]] := by
  decide

/-- C2 amended: the vertical gap test used by the merge is
`(fragment.top − lastFragment.bottom) ≤ fragment.height × max_line_gap` —
the tolerance is scaled by the CURRENT fragment's height.  On a sorted
two-fragment input the later fragment joins the earlier one exactly when
this test and the horizontal test pass. -/
theorem claim_C2_amended (gap xdiff : Int) (f g : Fragment) (h : keyLe f g) :
    (merge_text_lines gap xdiff [f, g]).map Paragraph.res =
      if g.location.top - (f.location.top + f.location.height) ≤ g.location.height * gap ∧
         (|g.location.left - f.location.left| ≤ xdiff ∨
          |(2 * g.location.left + g.location.width) -
              (2 * f.location.left + f.location.width)| ≤ 2 * xdiff * g.location.width)
      then [[f, g]] else [[f], [g]] := by
  have hsort : List.insertionSort keyLe [f, g] = [f, g] := by
    simp [List.insertionSort, List.orderedInsert, if_pos h]
  rw [merge_eq, hsort]
  have hstep1 : step gap xdiff [] f = [[f]] := rfl
  have hacc : accepts gap xdiff [f] g =
      (vTest gap g.location f.location && hTest xdiff g.location f.location) := rfl
  by_cases hv : g.location.top - (f.location.top + f.location.height) ≤ g.location.height * gap ∧
      (|g.location.left - f.location.left| ≤ xdiff ∨
       |(2 * g.location.left + g.location.width) -
           (2 * f.location.left + f.location.width)| ≤ 2 * xdiff * g.location.width)
  · rw [if_pos hv]
    have haccT : accepts gap xdiff [f] g = true := by
      rw [hacc]
      unfold vTest hTest
      rcases hv with ⟨h1, h2⟩
      rcases h2 with h2 | h2 <;> simp [h1, h2]
    show ((List.foldl (step gap xdiff) [] [f, g]).map
      (fun r => (⟨r, paraWords r⟩ : Paragraph))).map Paragraph.res = [[f, g]]
    rw [List.foldl_cons, List.foldl_cons, List.foldl_nil, hstep1]
    unfold step tryAppend
    rw [if_pos haccT]
    rfl
  · rw [if_neg hv]
    have haccF : accepts gap xdiff [f] g = false := by
      rw [hacc]
      unfold vTest hTest
      rw [not_and_or, not_or] at hv
      rcases hv with h1 | ⟨h2, h3⟩
      · simp [h1]
      · simp [h2, h3]
    show ((List.foldl (step gap xdiff) [] [f, g]).map
      (fun r => (⟨r, paraWords r⟩ : Paragraph))).map Paragraph.res = [[f], [g]]
    rw [List.foldl_cons, List.foldl_cons, List.foldl_nil, hstep1]
    unfold step tryAppend
    rw [if_neg (by simp [haccF])]
    rfl

/-- Witness for the amended C2 at a concrete sorted pair that merges. -/
theorem claim_C2_amended_witness :
    (merge_text_lines 2 1 [⟨"a", ⟨0, 0, 10, 10⟩⟩, ⟨"b", ⟨0, 21, 10, 20⟩⟩]).map Paragraph.res =
      if (21 : Int) - (0 + 10) ≤ 20 * 2 ∧
         (|(0 : Int) - 0| ≤ 1 ∨ |(2 * 0 + 10 : Int) - (2 * 0 + 10)| ≤ 2 * 1 * 10)
      then [[⟨"a", ⟨0, 0, 10, 10⟩⟩, ⟨"b", ⟨0, 21, 10, 20⟩⟩]]
      else [[⟨"a", ⟨0, 0, 10, 10⟩⟩], [⟨"b", ⟨0, 21, 10, 20⟩⟩]] :=
  claim_C2_amended 2 1 ⟨"a", ⟨0, 0, 10, 10⟩⟩ ⟨"b", ⟨0, 21, 10, 20⟩⟩ (by decide)

/-! ## Error handling of the merge (claim C4) -/

lemma extractWF_none_of {raw : List RawFragment} {r : RawFragment}
    (hm : r ∈ raw) (hr : r.toWF = none) : extractWF raw = none := by
  induction raw with
  | nil => cases hm
  | cons x xs ih =>
    rw [extractWF]
    rcases List.mem_cons.mp hm with rfl | hm'
    · rw [hr]
    · rw [ih hm']
      cases x.toWF <;> rfl

lemma extractWF_some_of {raw : List RawFragment}
    (h : ∀ r ∈ raw, r.toWF ≠ none) : ∃ fs, extractWF raw = some fs := by
  induction raw with
  | nil => exact ⟨[], rfl⟩
  | cons x xs ih =>
    obtain ⟨fs, hfs⟩ := ih (fun r hr => h r (List.mem_cons_of_mem x hr))
    have hx := h x (List.mem_cons_self x xs)
    cases hxw : x.toWF with
    | none => exact absurd hxw hx
    | some f =>
      refine ⟨f :: fs, ?_⟩
      rw [extractWF, hxw, hfs]

instance {ε α : Type} [DecidableEq ε] [DecidableEq α] :
    DecidableEq (Except ε α) := fun a b =>
  match a, b with
  | .ok x, .ok y =>
    if h : x = y then isTrue (by rw [h]) else isFalse (fun hc => h (by injection hc))
  | .error x, .error y =>
    if h : x = y then isTrue (by rw [h]) else isFalse (fun hc => h (by injection hc))
  | .ok _, .error _ => isFalse (fun hc => Except.noConfusion hc)
  | .error _, .ok _ => isFalse (fun hc => Except.noConfusion hc)

def c4Neg : RawFragment := ⟨"w", ⟨some 0, some 0, some (-3), some (-5)⟩⟩

/-- C4 counterexample: a fragment whose location carries negative width
and height is not rejected — the merge succeeds and processes it like any
other fragment, contradicting the claimed InvalidInput failure on
negative dimensions. -/
theorem claim_C4_counterexample :
    c4Neg.location.width = some (-3) ∧ c4Neg.location.height = some (-5) ∧
    merge_text_lines_raw 2 1 [c4Neg] =
      .ok [⟨[⟨"w", ⟨0, 0, -3, -5⟩⟩], "w\n"⟩] := by
  decide

/-- C4 amended: the merge fails (with a KeyError, producing no partial
output) when some fragment's location dictionary is missing a field;
negative width/height values are accepted and processed normally, and for
every input whose location fields are all present the merge does not
fail. -/
theorem claim_C4_amended (gap xdiff : Int) (raw : List RawFragment) :
    ((∃ r ∈ raw, r.toWF = none) →
        merge_text_lines_raw gap xdiff raw = .error .keyError) ∧
    ((∀ r ∈ raw, r.toWF ≠ none) →
        ∃ ps, merge_text_lines_raw gap xdiff raw = .ok ps) := by
  constructor
  · rintro ⟨r, hm, hr⟩
    unfold merge_text_lines_raw
    rw [extractWF_none_of hm hr]
  · intro h
    obtain ⟨fs, hfs⟩ := extractWF_some_of h
    refine ⟨merge_text_lines gap xdiff fs, ?_⟩
    unfold merge_text_lines_raw
    rw [hfs]

/-- Witness for the amended C4: a missing `left` key fails, a complete
location (even with negative dimensions) succeeds. -/
theorem claim_C4_amended_witness :
    merge_text_lines_raw 2 1 [⟨"m", ⟨none, some 0, some 1, some 1⟩⟩] =
      .error .keyError ∧
    ∃ ps, merge_text_lines_raw 2 1 [c4Neg] = .ok ps :=
  ⟨(claim_C4_amended 2 1 [⟨"m", ⟨none, some 0, some 1, some 1⟩⟩]).1
     ⟨⟨"m", ⟨none, some 0, some 1, some 1⟩⟩, by decide, by decide⟩,
   (claim_C4_amended 2 1 [c4Neg]).2 (by decide)⟩

/-! ## Determinism under reordering (claim C5) -/

lemma keyLt_of_keyLe_ne {a b : Fragment} (hle : keyLe a b)
    (hne : sortKey a ≠ sortKey b) : keyLt a b := by
  unfold keyLe at hle
  unfold sortKey at hne
  unfold keyLt
  simp only [ne_eq, Prod.mk.injEq, not_and] at hne
  by_cases htop : a.location.top = b.location.top
  · exact Or.inr ⟨htop, by omega⟩
  · omega

lemma sorted_keyLt {s : List Fragment} (h1 : List.Sorted keyLe s)
    (h2 : s.Pairwise (fun a b => sortKey a ≠ sortKey b)) :
    List.Sorted keyLt s :=
  (List.Pairwise.and h1 h2).imp (fun h => keyLt_of_keyLe_ne h.1 h.2)

def c5X : Fragment := ⟨"a", ⟨0, 0, 10, 10⟩⟩

def c5Y : Fragment := ⟨"b", ⟨0, 0, 10, 10⟩⟩

/-- C5 counterexample: two fragments sharing the same `(top, left)` sort
key tie in the stable sort, which preserves their input order, so the two
orderings of the same fragment set produce different paragraphs (the
fragment order, hence the joined text, differs). -/
theorem claim_C5_counterexample :
    ([c5X, c5Y] : List Fragment).Perm [c5Y, c5X] ∧
    merge_text_lines 2 1 [c5X, c5Y] ≠ merge_text_lines 2 1 [c5Y, c5X] := by
  constructor
  · decide
  · decide

/-- C5 amended: the merge is deterministic under input reordering
provided no two fragments share the same `(top, left)` sort key; the sort
is stable and keyed only on `(top, left)`, so inputs with tied keys may
produce different outputs for different orderings. -/
theorem claim_C5_amended (gap xdiff : Int) (l₁ l₂ : List Fragment)
    (hperm : l₁.Perm l₂)
    (hkeys : l₁.Pairwise (fun a b => sortKey a ≠ sortKey b)) :
    merge_text_lines gap xdiff l₁ = merge_text_lines gap xdiff l₂ := by
  have hsymm : ∀ {x y : Fragment}, sortKey x ≠ sortKey y → sortKey y ≠ sortKey x :=
    fun h e => h e.symm
  have hkeys₂ : l₂.Pairwise (fun a b => sortKey a ≠ sortKey b) :=
    (hperm.pairwise_iff hsymm).mp hkeys
  have hs : List.insertionSort keyLe l₁ = List.insertionSort keyLe l₂ := by
    apply List.eq_of_perm_of_sorted (r := keyLt)
    · exact (List.perm_insertionSort keyLe l₁).trans
        (hperm.trans (List.perm_insertionSort keyLe l₂).symm)
    · exact sorted_keyLt (List.sorted_insertionSort keyLe l₁)
        (((List.perm_insertionSort keyLe l₁).pairwise_iff hsymm).mpr hkeys)
    · exact sorted_keyLt (List.sorted_insertionSort keyLe l₂)
        (((List.perm_insertionSort keyLe l₂).pairwise_iff hsymm).mpr hkeys₂)
  rw [merge_eq, merge_eq, hs]

/-- Witness for the amended C5: two orderings of a two-fragment set with
distinct keys produce the same output. -/
theorem claim_C5_amended_witness :
    merge_text_lines 2 1
        [⟨"a", ⟨0, 0, 10, 10⟩⟩, ⟨"b", ⟨0, 21, 10, 20⟩⟩] =
      merge_text_lines 2 1
        [⟨"b", ⟨0, 21, 10, 20⟩⟩, ⟨"a", ⟨0, 0, 10, 10⟩⟩] :=
  claim_C5_amended 2 1 _ _ (by decide) (by decide)

/-! ## Degenerate-region defaults (claim C8) -/

/-- C8: on any image and any rectangle whose clip to the image bounds is
empty (zero width or height after clamping), the background color is the
white default and the text color the black default, regardless of image
content and of the supplied background/threshold — a defined fallback,
not an error. -/
theorem claim_C8 (img : Image) (loc : Location)
    (h : min img.width (max 0 loc.left + loc.width) ≤ max 0 loc.left ∨
         min img.height (max 0 loc.top + loc.height) ≤ max 0 loc.top) :
    get_text_background_color img loc = ⟨255, 255, 255⟩ ∧
    ∀ (bg? : Option Color) (thr : Int),
      get_text_color img loc bg? thr = ⟨0, 0, 0⟩ := by
  constructor
  · unfold get_text_background_color
    simp only [if_pos h]
  · intro bg? thr
    unfold get_text_color
    simp only [if_pos h]

/-- Witness for C8: a 5×5 image with a rectangle entirely outside the
bounds. -/
theorem claim_C8_witness :
    get_text_background_color ⟨5, 5, fun _ _ => ⟨1, 2, 3⟩⟩ ⟨10, 10, 3, 3⟩ =
      ⟨255, 255, 255⟩ ∧
    get_text_color ⟨5, 5, fun _ _ => ⟨1, 2, 3⟩⟩ ⟨10, 10, 3, 3⟩ none 30 =
      ⟨0, 0, 0⟩ := by
  have h := claim_C8 ⟨5, 5, fun _ _ => ⟨1, 2, 3⟩⟩ ⟨10, 10, 3, 3⟩ (by decide)
  exact ⟨h.1, h.2 none 30⟩

/-! ## The try/except boundary of the color functions (claim C9) -/

/-- C9: the color functions never raise: the computation body sits inside
a try/except whose handler substitutes the default color.  In this
embedding the fallible part is the location-field access; the wrappers
are total, and on a malformed location (a missing field) they return
exactly the white (background) and black (foreground) defaults, for every
image, supplied background, and threshold. -/
theorem claim_C9 (img : Image) (raw : RawLocation) (bg? : Option Color)
    (thr : Int)
    (h : raw.left = none ∨ raw.top = none ∨ raw.width = none ∨
         raw.height = none) :
    get_text_background_color_raw img raw = ⟨255, 255, 255⟩ ∧
    get_text_color_raw img raw bg? thr = ⟨0, 0, 0⟩ := by
  have htoWF : raw.toWF = none := by
    unfold RawLocation.toWF
    rcases raw with ⟨l, t, w, ht⟩
    dsimp only at h ⊢
    rcases l with _ | l <;> rcases t with _ | t <;> rcases w with _ | w <;>
      rcases ht with _ | ht <;> simp_all
  unfold get_text_background_color_raw get_text_color_raw
  rw [htoWF]
  exact ⟨rfl, rfl⟩

/-- Witness for C9: a location dictionary missing its `left` key. -/
theorem claim_C9_witness :
    get_text_background_color_raw ⟨5, 5, fun _ _ => ⟨1, 2, 3⟩⟩
        ⟨none, some 0, some 2, some 2⟩ = ⟨255, 255, 255⟩ ∧
    get_text_color_raw ⟨5, 5, fun _ _ => ⟨1, 2, 3⟩⟩
        ⟨none, some 0, some 2, some 2⟩ none 30 = ⟨0, 0, 0⟩ :=
  claim_C9 ⟨5, 5, fun _ _ => ⟨1, 2, 3⟩⟩ ⟨none, some 0, some 2, some 2⟩ none 30
    (Or.inl rfl)

/-! ## Median, mean and region helpers -/

lemma intTruncDiv_mul (n x : Int) (hn : n ≠ 0) : intTruncDiv (n * x) n = x := by
  unfold intTruncDiv
  exact Int.mul_tdiv_cancel_left x hn

lemma medianChannel_const {l : List Int} {x : Int} (hne : l ≠ [])
    (h : ∀ y ∈ l, y = x) : medianChannel l = x := by
  simp only [medianChannel]
  have hsmem : ∀ y ∈ List.insertionSort (· ≤ ·) l, y = x :=
    fun y hy => h y ((List.mem_insertionSort _).mp hy)
  have hlen : (List.insertionSort (· ≤ ·) l).length = l.length :=
    List.length_insertionSort _ l
  have hpos : 0 < (List.insertionSort (· ≤ ·) l).length := by
    rw [hlen]
    exact List.length_pos.mpr hne
  by_cases hodd : (List.insertionSort (· ≤ ·) l).length % 2 = 1
  · rw [if_pos hodd]
    have hlt : (List.insertionSort (· ≤ ·) l).length / 2 <
        (List.insertionSort (· ≤ ·) l).length := Nat.div_lt_self hpos (by omega)
    rw [List.getD_eq_getElem _ 0 hlt]
    exact hsmem _ (List.getElem_mem hlt)
  · rw [if_neg hodd]
    have hlt2 : (List.insertionSort (· ≤ ·) l).length / 2 <
        (List.insertionSort (· ≤ ·) l).length := Nat.div_lt_self hpos (by omega)
    have hlt1 : (List.insertionSort (· ≤ ·) l).length / 2 - 1 <
        (List.insertionSort (· ≤ ·) l).length := by omega
    rw [List.getD_eq_getElem _ 0 hlt1, List.getD_eq_getElem _ 0 hlt2,
      hsmem _ (List.getElem_mem hlt1), hsmem _ (List.getElem_mem hlt2)]
    have hxx : x + x = 2 * x := by ring
    rw [hxx]
    exact intTruncDiv_mul 2 x (by omega)

lemma medianColor_const {l : List Color} {c : Color} (hne : l ≠ [])
    (h : ∀ y ∈ l, y = c) : medianColor l = c := by
  have hchan : ∀ (f : Color → Int), ∀ y ∈ l.map f, y = f c := by
    intro f y hy
    obtain ⟨p, hp, rfl⟩ := List.mem_map.mp hy
    rw [h p hp]
  have hmne : ∀ f : Color → Int, l.map f ≠ [] :=
    fun f hf => hne (List.map_eq_nil_iff.mp hf)
  unfold medianColor
  rw [medianChannel_const (hmne _) (hchan _), medianChannel_const (hmne _) (hchan _),
    medianChannel_const (hmne _) (hchan _)]

lemma sum_const_list {l : List Int} {x : Int} (h : ∀ y ∈ l, y = x) :
    l.sum = (l.length : Int) * x := by
  rw [List.eq_replicate_length.mpr h, List.sum_replicate]
  simp [nsmul_eq_mul, List.length_replicate]

lemma meanColor_const {l : List Color} {c : Color} (hne : l ≠ [])
    (h : ∀ y ∈ l, y = c) : meanColor l = c := by
  have hchan : ∀ (f : Color → Int), ∀ y ∈ l.map f, y = f c := by
    intro f y hy
    obtain ⟨p, hp, rfl⟩ := List.mem_map.mp hy
    rw [h p hp]
  have hlen : (0 : Int) < l.length := by
    have := List.length_pos.mpr hne
    exact_mod_cast this
  unfold meanColor
  have hcomp : ∀ f : Color → Int,
      intTruncDiv (l.map f).sum (l.map f).length = f c := by
    intro f
    rw [sum_const_list (hchan f), List.length_map]
    exact intTruncDiv_mul _ _ (by omega)
  have h1 := hcomp (·.r)
  have h2 := hcomp (·.g)
  have h3 := hcomp (·.b)
  rw [List.length_map] at h1 h2 h3
  rw [h1, h2, h3]

lemma region_const {img : Image} {c : Color} (hpix : ∀ y x, img.pix y x = c)
    {t b l r : Int} : ∀ p ∈ region img t b l r, p = c := by
  intro p hp
  unfold region at hp
  simp only [List.mem_flatMap, List.mem_map, List.mem_range] at hp
  obtain ⟨dy, _, dx, _, rfl⟩ := hp
  exact hpix _ _

lemma region_length (img : Image) (t b l r : Int) :
    (region img t b l r).length = (b - t).toNat * (r - l).toNat := by
  unfold region
  rw [List.length_flatMap]
  have hsum : ∀ xs : List Nat,
      (List.map (List.length ∘ fun dy => (List.range (r - l).toNat).map
        (fun dx => img.pix (t + Int.ofNat dy) (l + Int.ofNat dx))) xs).sum =
      xs.length * (r - l).toNat := by
    intro xs
    induction xs with
    | nil => simp
    | cons a xs ih =>
      simp only [List.map_cons, List.sum_cons, ih, Function.comp_apply,
        List.length_map, List.length_range, List.length_cons]
      ring
  rw [hsum, List.length_range]

/-! ## Uniform background (claim C7) -/

/-- C7: on a uniformly colored image of color `(10,20,30)`, the background
color of any in-bounds rectangle is exactly `(10,20,30)` — both when the
result is the per-channel median of the surviving perimeter samples and
when it is the mean-of-region fallback taken because no sample survives. -/
theorem claim_C7 (img : Image) (loc : Location)
    (hpix : ∀ y x, img.pix y x = ⟨10, 20, 30⟩)
    (hl : 0 ≤ loc.left) (ht : 0 ≤ loc.top)
    (hw : 1 ≤ loc.width) (hh : 1 ≤ loc.height)
    (hr : loc.left + loc.width ≤ img.width)
    (hb : loc.top + loc.height ≤ img.height) :
    get_text_background_color img loc = ⟨10, 20, 30⟩ := by
  simp only [get_text_background_color]
  rw [if_neg (by omega)]
  have hlen : (region img (max 0 loc.top)
      (min img.height (max 0 loc.top + loc.height)) (max 0 loc.left)
      (min img.width (max 0 loc.left + loc.width))).length ≠ 0 := by
    rw [region_length]
    refine Nat.mul_ne_zero ?_ ?_ <;> omega
  rw [if_neg hlen]
  by_cases hsam : (((samplePoints (max 0 loc.left) (max 0 loc.top) loc.width
      loc.height).filter (fun q => decide (0 ≤ q.1) && decide (q.1 < img.width) &&
        decide (0 ≤ q.2) && decide (q.2 < img.height))).map
          (fun q => img.pix q.2 q.1)).length = 0
  · rw [if_pos hsam]
    refine meanColor_const ?_ (region_const hpix)
    intro hnil
    exact hlen (by rw [hnil]; rfl)
  · rw [if_neg hsam]
    refine medianColor_const ?_ ?_
    · intro hnil
      exact hsam (by rw [hnil]; rfl)
    · intro y hy
      obtain ⟨q, _, rfl⟩ := List.mem_map.mp hy
      exact hpix _ _

/-- Witness for C7: a concrete 4×4 uniform image and an interior
rectangle. -/
theorem claim_C7_witness :
    get_text_background_color ⟨4, 4, fun _ _ => ⟨10, 20, 30⟩⟩ ⟨1, 1, 2, 2⟩ =
      ⟨10, 20, 30⟩ :=
  claim_C7 ⟨4, 4, fun _ _ => ⟨10, 20, 30⟩⟩ ⟨1, 1, 2, 2⟩ (fun _ _ => rfl)
    (by decide) (by decide) (by decide) (by decide) (by decide) (by decide)

/-! ## Foreground contrast (claim C3) -/

lemma contrast_far (B : Color) : 100 ≤ dist2 (get_contrasting_color B) B := by
  unfold get_contrasting_color dist2
  by_cases h : 128000 < B.r * 299 + B.g * 587 + B.b * 114
  · rw [if_pos h]
    dsimp only
    by_contra hc
    push_neg at hc
    have hr2 : B.r * B.r < 100 := by nlinarith [mul_self_nonneg (0 - B.g), mul_self_nonneg (0 - B.b)]
    have hg2 : B.g * B.g < 100 := by nlinarith [mul_self_nonneg (0 - B.r), mul_self_nonneg (0 - B.b)]
    have hb2 : B.b * B.b < 100 := by nlinarith [mul_self_nonneg (0 - B.r), mul_self_nonneg (0 - B.g)]
    have hr9 : B.r ≤ 9 := by nlinarith [mul_self_nonneg (B.r - 10)]
    have hg9 : B.g ≤ 9 := by nlinarith [mul_self_nonneg (B.g - 10)]
    have hb9 : B.b ≤ 9 := by nlinarith [mul_self_nonneg (B.b - 10)]
    linarith
  · rw [if_neg h]
    push_neg at h
    dsimp only
    by_contra hc
    push_neg at hc
    have hr2 : (255 - B.r) * (255 - B.r) < 100 := by
      nlinarith [mul_self_nonneg (255 - B.g), mul_self_nonneg (255 - B.b)]
    have hg2 : (255 - B.g) * (255 - B.g) < 100 := by
      nlinarith [mul_self_nonneg (255 - B.r), mul_self_nonneg (255 - B.b)]
    have hb2 : (255 - B.b) * (255 - B.b) < 100 := by
      nlinarith [mul_self_nonneg (255 - B.r), mul_self_nonneg (255 - B.g)]
    have hr9 : 246 ≤ B.r := by nlinarith [mul_self_nonneg (245 - B.r)]
    have hg9 : 246 ≤ B.g := by nlinarith [mul_self_nonneg (245 - B.g)]
    have hb9 : 246 ≤ B.b := by nlinarith [mul_self_nonneg (245 - B.b)]
    linarith

lemma fallback_or (tr : List Color) (bg : Color) :
    get_text_color_fallback tr bg = get_contrasting_color bg ∨
      400 < dist2 (get_text_color_fallback tr bg) bg := by
  simp only [get_text_color_fallback]
  by_cases h : 400 < dist2 (medianColor tr) bg
  · rw [if_pos h]
    exact Or.inr h
  · rw [if_neg h]
    exact Or.inl rfl

lemma fallback_far (tr : List Color) (bg : Color) :
    100 ≤ dist2 (get_text_color_fallback tr bg) bg := by
  rcases fallback_or tr bg with h | h
  · rw [h]
    exact contrast_far bg
  · linarith

/-- C3 amended: for every background `B`, on any rectangle whose clip to
the image bounds is non-empty, `get_text_color` never returns a color
whose squared distance from `B` is below 100 (distance below 10); the
fallback path returns either the all-pixels median (then more than 20
away from `B`) or exactly the contrasting color; and the contrasting
color of white is black and of black is white.  (On an empty clip the
function returns the black default regardless of `B`.) -/
theorem claim_C3_amended (img : Image) (loc : Location) (B : Color) (thr : Int)
    (h : ¬ (min img.width (max 0 loc.left + loc.width) ≤ max 0 loc.left ∨
            min img.height (max 0 loc.top + loc.height) ≤ max 0 loc.top)) :
    100 ≤ dist2 (get_text_color img loc (some B) thr) B ∧
    (∀ (tr : List Color) (bg : Color),
        get_text_color_fallback tr bg = get_contrasting_color bg ∨
          400 < dist2 (get_text_color_fallback tr bg) bg) ∧
    get_contrasting_color ⟨255, 255, 255⟩ = ⟨0, 0, 0⟩ ∧
    get_contrasting_color ⟨0, 0, 0⟩ = ⟨255, 255, 255⟩ := by
  refine ⟨?_, fun tr bg => fallback_or tr bg, by decide, by decide⟩
  simp only [get_text_color]
  rw [if_neg h]
  have hlen : (region img (max 0 loc.top)
      (min img.height (max 0 loc.top + loc.height)) (max 0 loc.left)
      (min img.width (max 0 loc.left + loc.width))).length ≠ 0 := by
    rw [region_length]
    push_neg at h
    refine Nat.mul_ne_zero ?_ ?_ <;> omega
  rw [if_neg hlen]
  by_cases hemp : ((region img (max 0 loc.top)
      (min img.height (max 0 loc.top + loc.height)) (max 0 loc.left)
      (min img.width (max 0 loc.left + loc.width))).filter
        (fun p => distGT (dist2 p B) thr)).length = 0
  · rw [if_pos hemp]
    exact fallback_far _ B
  · rw [if_neg hemp]
    by_cases hclose : dist2 (medianColor ((region img (max 0 loc.top)
        (min img.height (max 0 loc.top + loc.height)) (max 0 loc.left)
        (min img.width (max 0 loc.left + loc.width))).filter
          (fun p => distGT (dist2 p B) thr))) B < 100
    · rw [if_pos hclose]
      exact contrast_far B
    · rw [if_neg hclose]
      omega

def c3Img : Image := ⟨2, 2, fun _ _ => ⟨25, 0, 0⟩⟩

/-- C3 counterexample: (i) on a rectangle clipping to empty,
`get_text_color` returns the black default, at distance 0 < 10 from the
background `(0,0,0)`, contradicting the unconditional distance guarantee;
(ii) on a uniform `(25,0,0)` region with background `(0,0,0)` the fallback
path is taken (no pixel is more than 30 away from the background) and
returns the region median `(25,0,0)`, which is neither black nor white —
not `contrastingColor(B) = (255,255,255)`. -/
theorem claim_C3_counterexample :
    (get_text_color c3Img ⟨10, 10, 2, 2⟩ (some ⟨0, 0, 0⟩) 30 = ⟨0, 0, 0⟩ ∧
      dist2 ⟨0, 0, 0⟩ ⟨0, 0, 0⟩ = 0) ∧
    (get_text_color c3Img ⟨0, 0, 2, 2⟩ (some ⟨0, 0, 0⟩) 30 = ⟨25, 0, 0⟩ ∧
      get_contrasting_color ⟨0, 0, 0⟩ = ⟨255, 255, 255⟩) := by
  decide

/-- Witness for the amended C3 at a concrete uniform image with a
non-empty clipped region. -/
theorem claim_C3_amended_witness :
    100 ≤ dist2 (get_text_color c3Img ⟨0, 0, 2, 2⟩ (some ⟨0, 0, 0⟩) 30)
        ⟨0, 0, 0⟩ ∧
    (get_text_color_fallback [⟨25, 0, 0⟩] ⟨0, 0, 0⟩ =
        get_contrasting_color ⟨0, 0, 0⟩ ∨
      400 < dist2 (get_text_color_fallback [⟨25, 0, 0⟩] ⟨0, 0, 0⟩) ⟨0, 0, 0⟩) ∧
    get_contrasting_color ⟨255, 255, 255⟩ = ⟨0, 0, 0⟩ ∧
    get_contrasting_color ⟨0, 0, 0⟩ = ⟨255, 255, 255⟩ :=
  have h := claim_C3_amended c3Img ⟨0, 0, 2, 2⟩ ⟨0, 0, 0⟩ 30 (by decide)
  ⟨h.1, h.2.1 [⟨25, 0, 0⟩] ⟨0, 0, 0⟩, h.2.2.1, h.2.2.2⟩

end ImageTranslator
